import Mathlib

/-!
Shallow embedding of the boundary layer in `ext/openssl/ossl.c`
(OpenSSL-for-Ruby binding core): the hex codec `string2hex`, the
certificate-array converter `ossl_x509_ary2sk`, the PEM passphrase callback
`ossl_pem_passwd_cb`, the verification callback `ossl_verify_cb`, the error
channel `ossl_raise`, and the debug-flag setter `ossl_debug_set`.
-/

namespace Ossl

/-- Ruby `VALUE`s, as far as this layer inspects them: the exact singletons
`Qtrue`, `Qfalse`, `Qnil`, tagged integers, and all other objects identified
by an id. -/
inductive RValue
  | qtrue
  | qfalse
  | qnil
  | vint (n : Int)
  | obj (id : Nat)
deriving DecidableEq, Repr

/-! ## string2hex (ossl.c lines 17-45) -/

/-- Value a C `int` holds after two's-complement wrap to the 32-bit signed
range (ILP32/LP64 ABI, where `int` is 32 bits wide). -/
def wrap32 (n : Int) : Int := (n + 2 ^ 31) % 2 ^ 32 - 2 ^ 31

/-- The lookup table `static const char hex[] = "0123456789abcdef"` as ASCII
codes. -/
def hexChars : List Nat :=
  [48, 49, 50, 51, 52, 53, 54, 55, 56, 57, 97, 98, 99, 100, 101, 102]

/-- The encoding loop of `string2hex`: iteration `i` writes
`hex[((unsigned char)buf[i]) >> 4]` at position `2*i` and `hex[buf[i] & 0x0f]`
at position `2*i+1`; `n` is the `buf_len` bound of the loop. -/
def hexEncodeLoop (buf : List Nat) : Nat → List Nat
  | 0 => []
  | n + 1 => hexEncodeLoop buf n ++
      [hexChars.getD (buf.getD n 0 % 256 / 16) 0, hexChars.getD (buf.getD n 0 % 16) 0]

/-- One byte rendered as its two lowercase hex digits, high nibble first
(the body of the `string2hex` loop for a single byte). -/
def enc1 (x : Nat) : List Nat :=
  [hexChars.getD (x % 256 / 16) 0, hexChars.getD (x % 16) 0]

/-- Structural form of the encoder output over a whole byte list. -/
def hexEncode : List Nat → List Nat
  | [] => []
  | x :: xs => enc1 x ++ hexEncode xs

/-- Observable outcome of `string2hex`: the returned `int`, the allocated
buffer stored through `hexbuf` (when allocation succeeded), whether a null
pointer was stored through `hexbuf` (the failed-malloc branch assigns the
null result before returning), and the value stored through `hexbuf_len`. -/
structure HexResult where
  ret : Int
  hexbuf : Option (List Nat)
  destSetNull : Bool
  hexbufLen : Option Int
deriving DecidableEq, Repr

/-- Shallow embedding of `string2hex(buf, buf_len, hexbuf, hexbuf_len)`.
`wantBuf` and `wantLen` say whether the `hexbuf` and `hexbuf_len` out-pointers
are non-null; `allocOk` is the outcome of `OPENSSL_malloc(len + 1)`. -/
def string2hex (buf : List Nat) (buf_len : Int) (wantBuf wantLen allocOk : Bool) :
    HexResult :=
  let len := wrap32 (2 * buf_len)
  if buf_len < 0 ∨ len < buf_len then
    ⟨-1, none, false, none⟩
  else if ¬ wantBuf then
    ⟨len, none, false, if wantLen then some len else none⟩
  else if ¬ allocOk then
    ⟨-1, none, true, none⟩
  else
    ⟨len, some (hexEncodeLoop buf buf_len.toNat ++ [0]), false,
      if wantLen then some len else none⟩

/-- Value of an ASCII code as a lowercase hex digit: the decoding relation of
the round-trip property (position in the `hex` table). -/
def hexDigitVal (c : Nat) : Option Nat := hexChars.findIdx? (· = c)

/-- Byte-for-byte decoding of a hex string, two digits per byte, high nibble
first: the inverse reading used by the round-trip property. -/
def hexDecode : List Nat → Option (List Nat)
  | [] => some []
  | [_] => none
  | c1 :: c2 :: rest =>
    (hexDigitVal c1).bind fun h =>
      (hexDigitVal c2).bind fun l =>
        (hexDecode rest).map fun tl => (16 * h + l) :: tl

/-! ## ossl_x509_ary2sk (ossl.c lines 50-72) -/

/-- Elements of the Ruby array passed to `ossl_x509_ary2sk`: either an
`OpenSSL::X509::Certificate` (`rb_obj_is_kind_of(val, cX509Cert)` holds) or
any other object. -/
inductive RObj
  | cert (id : Nat)
  | nonCert (id : Nat)
deriving DecidableEq, Repr

/-- Whether `rb_obj_is_kind_of(val, cX509Cert)` holds. -/
def RObj.isCert : RObj → Bool
  | .cert _ => true
  | .nonCert _ => false

/-- Exception kinds this layer raises through `ossl_raise`. -/
inductive ExcKind
  | eOSSLErrorK
deriving DecidableEq, Repr

/-- The message of the element-type-mismatch raise in `ossl_x509_ary2sk`. -/
def certMismatchMsg : String := "object except X509 cert is in array"

/-- Outcome of the conversion: the returned native stack (the ids of the
duplicated certificates, input order preserved), or a raise with its
exception kind and message. -/
inductive ConvOutcome
  | ok (sk : List Nat)
  | raised (exc : ExcKind) (msg : Option String)
deriving DecidableEq, Repr

/-- Conversion result with native-memory accounting: `allocated` counts the
X509 duplicates created by `DupX509CertPtr`, `freed` counts those released by
`sk_X509_pop_free(sk, X509_free)` before raising (on the ok path ownership of
all duplicates passes to the returned stack, nothing is freed). -/
structure ConvResult where
  outcome : ConvOutcome
  allocated : Nat
  freed : Nat
deriving DecidableEq, Repr

/-- The element loop of `ossl_x509_ary2sk`; `acc` holds the duplicates pushed
so far, most recent first. -/
def ary2skLoop : List RObj → List Nat → ConvResult
  | [], acc => ⟨.ok acc.reverse, acc.length, 0⟩
  | o :: rest, acc =>
    match o with
    | .cert id => ary2skLoop rest (id :: acc)
    | .nonCert _ => ⟨.raised .eOSSLErrorK (some certMismatchMsg), acc.length, acc.length⟩

/-- Shallow embedding of `ossl_x509_ary2sk(ary)`; `skAllocOk` is the outcome
of `sk_X509_new_null()` (on failure the code raises with a null format). -/
def ossl_x509_ary2sk (skAllocOk : Bool) (ary : List RObj) : ConvResult :=
  if skAllocOk then ary2skLoop ary []
  else ⟨.raised .eOSSLErrorK none, 0, 0⟩

/-! ## ossl_pem_passwd_cb (ossl.c lines 124-155) -/

/-- Behaviour of one invocation of the registered block through
`rb_protect(ossl_pem_passwd_cb0, rflag, &status)`: a string result (its
bytes), or a nonzero `status` (the yield or `SafeStringValue` raised). -/
inductive ClosureResult
  | ok (pass : List Nat)
  | raise
deriving DecidableEq, Repr

/-- A warning emitted by the retry loop: the too-short warning, or the
too-long warning carrying the number it prints (`max_len - 1`). -/
inductive PemWarn
  | tooShort
  | tooLong (n : Int)
deriving DecidableEq, Repr

/-- Result of a completed passphrase callback: the returned `int`, the bytes
`memcpy` copied into `buf` (`none` when nothing was copied; exactly these
bytes are written, no terminator), the warnings emitted in order, and the
number of closure invocations. -/
structure PemResult where
  ret : Int
  copied : Option (List Nat)
  warns : List PemWarn
  calls : Nat
deriving DecidableEq, Repr

/-- Outcome of `ossl_pem_passwd_cb`: delegated to `PEM_def_callback`,
completed, or fuel exhausted (the loop in the C code has no bound of its
own). -/
inductive PemOutcome
  | delegated
  | done (r : PemResult)
  | fuelOut
deriving DecidableEq, Repr

/-- The `while (1)` retry loop of `ossl_pem_passwd_cb`. `c i rflag` is the
result of the i-th closure invocation, `rflag` the boolean passed to the
block, `i` the number of invocations so far, `ws` the warnings so far in
reverse. -/
def pemLoop (c : Nat → Bool → ClosureResult) (max_len : Int) (rflag : Bool) :
    Nat → Nat → List PemWarn → PemOutcome
  | 0, _, _ => .fuelOut
  | fuel + 1, i, ws =>
    match c i rflag with
    | .raise => .done ⟨-1, none, ws.reverse, i + 1⟩
    | .ok pass =>
      if (pass.length : Int) < 4 then
        pemLoop c max_len rflag fuel (i + 1) (.tooShort :: ws)
      else if (pass.length : Int) > max_len then
        pemLoop c max_len rflag fuel (i + 1) (.tooLong (max_len - 1) :: ws)
      else
        .done ⟨pass.length, some pass, ws.reverse, i + 1⟩

/-- Shallow embedding of `ossl_pem_passwd_cb(buf, max_len, flag, pwd)`.
`pwd` says whether a direct password pointer was supplied, `blockGiven`
whether a Ruby block is registered; when either test sends the call to
`PEM_def_callback` the outcome is `delegated`. -/
def ossl_pem_passwd_cb (pwd blockGiven : Bool) (c : Nat → Bool → ClosureResult)
    (max_len flag : Int) (fuel : Nat) : PemOutcome :=
  if pwd ∨ ¬ blockGiven then .delegated
  else pemLoop c max_len (decide (flag ≠ 0)) fuel 0 []

/-- Kind of warning the loop emits for a rejected password. -/
def pemWarnOf (max_len : Int) : ClosureResult → PemWarn
  | .ok p => if (p.length : Int) < 4 then .tooShort else .tooLong (max_len - 1)
  | .raise => .tooShort

/-- Whether the loop rejects and retries this closure result: a string of
length below 4 or above `max_len` (a raise is never retried). -/
def pemInvalid (max_len : Int) : ClosureResult → Bool
  | .ok p => decide ((p.length : Int) < 4) || decide ((p.length : Int) > max_len)
  | .raise => false

/-! ## ossl_verify_cb (ossl.c lines 169-205) -/

/-- The native verification-context state the callback reads and writes: the
two ex-data slots consulted for the registered closure (`none` models a null
`VALUE`), and the `X509_STORE_CTX` error code. -/
structure VCtx where
  ctxData : Option RValue
  storeData : Option RValue
  err : Int
deriving DecidableEq, Repr

def X509_V_OK : Int := 0

def X509_V_ERR_CERT_REJECTED : Int := 28

/-- Behaviour of one invocation of the user closure with the given
`preverify_ok` boolean (the store-context wrapper argument is opaque to this
layer): a returned value, or a raise. -/
inductive ProcBehavior
  | returns (v : RValue)
  | raises
deriving DecidableEq, Repr

/-- Outcome of `ossl_verify_cb`: a normal return of the C `int` together with
the final context state and whether `ossl_x509stctx_clear_ptr` ran, or
propagation of a Ruby exception out of the callback (`rb_ensure` runs the
cleanup and then re-raises; nothing protects the closure call itself). -/
inductive VerifyOutcome
  | ret (ok : Int) (st : VCtx) (wrapperCleared : Bool)
  | raised (st : VCtx) (wrapperCleared : Bool)
deriving DecidableEq, Repr

/-- The two-level ex-data lookup: `X509_STORE_CTX_get_ex_data`, falling back
to `X509_STORE_get_ex_data` on the parent store when the first slot is 0. -/
def resolveProc (st : VCtx) : Option RValue :=
  match st.ctxData with
  | some p => some p
  | none => st.storeData

/-- The `preverify_ok` argument handed to the closure:
`ok ? Qtrue : Qfalse`. -/
def preverifyRV (ok : Int) : RValue := if ok ≠ 0 then .qtrue else .qfalse

/-- Shallow embedding of `ossl_verify_cb(ok, ctx)`. `wrapOk` is whether
`rb_protect(ossl_x509stctx_new, ...)` succeeded (`state == 0`); `proc` gives
the closure behaviour as a function of the `preverify_ok` boolean it
receives. -/
def ossl_verify_cb (ok : Int) (st : VCtx) (wrapOk : Bool)
    (proc : RValue → ProcBehavior) : VerifyOutcome :=
  match resolveProc st with
  | none => .ret ok st false
  | some p =>
    if p = .qnil then .ret ok st false
    else if ¬ wrapOk then
      if st.err = X509_V_OK then
        .ret 0 { st with err := X509_V_ERR_CERT_REJECTED } false
      else .ret 0 st false
    else
      match proc (preverifyRV ok) with
      | .raises => .raised st true
      | .returns v =>
        if v = .qtrue then .ret 1 { st with err := X509_V_OK } true
        else if st.err = X509_V_OK then
          .ret 0 { st with err := X509_V_ERR_CERT_REJECTED } true
        else .ret 0 st true

/-! ## ossl_raise (ossl.c lines 220-245) -/

/-- The `stdio.h` constant `BUFSIZ` sizing the local message buffer (8192 on
the glibc platforms this extension builds on). -/
def BUFSIZ : Int := 8192

/-- Conversion of a C `int` to `size_t` (64-bit), as happens to the
`BUFSIZ - len` size argument of `snprintf`. -/
def sizeT (n : Int) : Nat := (n % 2 ^ 64).toNat

/-- Bytes an `snprintf`-family call with the given `size_t` size stores for a
full rendered output `s`: nothing when size is 0, otherwise at most
`size - 1` bytes of `s` plus the NUL terminator. -/
def snprintfOut (size : Nat) (s : List Nat) : List Nat :=
  if size = 0 then [] else s.take (size - 1) ++ [0]

/-- Store the byte list `s` into memory `b` starting at offset `off`. -/
def writeBytes (b : Nat → Nat) (off : Nat) (s : List Nat) : Nat → Nat :=
  fun i => if off ≤ i ∧ i < off + s.length then s.getD (i - off) 0 else b i

/-- The first `n` bytes of memory `b`. -/
def readRange (b : Nat → Nat) (n : Nat) : List Nat := (List.range n).map b

/-- The ASCII bytes of the separator `": "`. -/
def colonSpace : List Nat := [58, 32]

/-- Native error state and debug flag as `ossl_raise` sees them: `e` is the
entry `ERR_get_error()` consumed (0 when the queue was empty), `debugFlag`
the value of `dOSSL`, `fullMsg` the rendering `ERR_error_string(e, NULL)`
(code plus library/function/reason names), `reasonMsg` the rendering
`ERR_reason_error_string(e)`. -/
structure ErrEnv where
  e : Int
  debugFlag : RValue
  fullMsg : List Nat
  reasonMsg : List Nat

/-- The message text `ossl_raise` appends for a pending entry: the full
diagnostic exactly when `dOSSL == Qtrue`, the short reason otherwise. -/
def chosenMsg (env : ErrEnv) : List Nat :=
  if env.debugFlag = RValue.qtrue then env.fullMsg else env.reasonMsg

/-- Observable outcome of `ossl_raise`: the final buffer memory, the final
`len` handed to `rb_exc_new`, whether every byte stored by the `snprintf`
calls landed inside the `BUFSIZ` buffer, the message bytes `rb_exc_new`
reads (`none` when the read would run past the buffer), and whether a native
error entry was consumed. -/
structure RaiseResult where
  buf : Nat → Nat
  len : Int
  writesOk : Bool
  message : Option (List Nat)
  errConsumed : Bool

/-- Package the final state of `ossl_raise` into its observable outcome. -/
def mkRaiseResult (env : ErrEnv) (b : Nat → Nat) (len : Int) (ok : Bool) :
    RaiseResult :=
  { buf := b, len := len, writesOk := ok,
    message := if 0 ≤ len ∧ len ≤ BUFSIZ then some (readRange b len.toNat) else none,
    errConsumed := decide (env.e ≠ 0) }

/-- The `if (e)` step of `ossl_raise`: append the chosen native message with
`snprintf(buf+len, BUFSIZ-len, "%s", msg)` and add its return value (the full
message length) to `len`. -/
def errStep (env : ErrEnv) (b : Nat → Nat) (len : Int) (ok : Bool) : RaiseResult :=
  if env.e ≠ 0 then
    let out := snprintfOut (sizeT (BUFSIZ - len)) (chosenMsg env)
    mkRaiseResult env (writeBytes b len.toNat out) (len + ((chosenMsg env).length : Int))
      (ok && (decide (out.length = 0) || decide (len + (out.length : Int) ≤ BUFSIZ)))
  else mkRaiseResult env b len ok

/-- Shallow embedding of `ossl_raise(exc, fmt, ...)`. `init` is the (arbitrary)
initial content of the stack buffer; `fmt` is `none` for a null format string,
otherwise the full rendering of the format with its arguments. The `len`
increments follow the C code exactly: each call contributes its return value,
the length of the full untruncated output. -/
def ossl_raise (env : ErrEnv) (init : Nat → Nat) (fmt : Option (List Nat)) :
    RaiseResult :=
  match fmt with
  | none => errStep env init 0 true
  | some p =>
    let out1 := snprintfOut (sizeT BUFSIZ) p
    let b1 := writeBytes init 0 out1
    let len1 : Int := p.length
    let ok1 := decide ((out1.length : Int) ≤ BUFSIZ)
    let out2 := snprintfOut (sizeT (BUFSIZ - len1)) colonSpace
    let b2 := writeBytes b1 len1.toNat out2
    let len2 := len1 + (colonSpace.length : Int)
    let ok2 := ok1 && (decide (out2.length = 0) || decide (len1 + (out2.length : Int) ≤ BUFSIZ))
    errStep env b2 len2 ok2

/-! ## ossl_debug_set (ossl.c lines 274-290) -/

/-- Observable outcome of `ossl_debug_set`: the stored flag, the returned
value, and whether `CRYPTO_mem_ctrl` was called with `CRYPTO_MEM_CHECK_ON`
or with `CRYPTO_MEM_CHECK_OFF`. -/
structure DebugSetResult where
  newFlag : RValue
  ret : RValue
  memCheckOn : Bool
  memCheckOff : Bool
deriving DecidableEq, Repr

/-- Shallow embedding of `ossl_debug_set(self, val)`: stores `val` into
`dOSSL` verbatim, then compares old and new values; the enable branch tests
`dOSSL == Qtrue`, the disable branch `old == Qtrue`. -/
def ossl_debug_set (old val : RValue) : DebugSetResult :=
  if old ≠ val then
    if val = .qtrue then ⟨val, val, true, false⟩
    else if old = .qtrue then ⟨val, val, false, true⟩
    else ⟨val, val, false, false⟩
  else ⟨val, val, false, false⟩

/-! ## Lemmas about the hex codec -/

lemma hexEncode_append (l1 l2 : List Nat) :
    hexEncode (l1 ++ l2) = hexEncode l1 ++ hexEncode l2 := by
  induction l1 with
  | nil => rfl
  | cons x xs ih => simp [hexEncode, ih]

lemma hexEncodeLoop_eq (b : List Nat) : ∀ n, n ≤ b.length →
    hexEncodeLoop b n = hexEncode (b.take n)
  | 0, _ => rfl
  | n + 1, h => by
    have hn : n < b.length := by omega
    rw [hexEncodeLoop, hexEncodeLoop_eq b n (by omega), List.take_succ,
      List.getElem?_eq_getElem hn, hexEncode_append]
    simp [hexEncode, enc1, List.getD_eq_getElem?_getD, List.getElem?_eq_getElem hn]

lemma hexEncode_length (b : List Nat) : (hexEncode b).length = 2 * b.length := by
  induction b with
  | nil => rfl
  | cons x xs ih => simp [hexEncode, enc1, ih]; omega

lemma hexEncode_getD (b : List Nat) : ∀ i, i < b.length →
    (hexEncode b).getD (2 * i) 0 = hexChars.getD (b.getD i 0 % 256 / 16) 0
    ∧ (hexEncode b).getD (2 * i + 1) 0 = hexChars.getD (b.getD i 0 % 16) 0 := by
  induction b with
  | nil => intro i hi; simp at hi
  | cons x xs ih =>
    intro i hi
    cases i with
    | zero => simp [hexEncode, enc1]
    | succ j =>
      have h2 : 2 * (j + 1) = 2 * j + 1 + 1 := by omega
      rw [h2]
      simpa [hexEncode, enc1] using ih j (by simpa using hi)

lemma hexDigitVal_enc (v : Nat) (h : v < 16) :
    hexDigitVal (hexChars.getD v 0) = some v := by
  have H : ∀ w : Nat, w < 16 → hexDigitVal (hexChars.getD w 0) = some w := by decide
  exact H v h

lemma hexDecode_cons (x : Nat) (hx : x < 256) (rest b : List Nat)
    (h : hexDecode rest = some b) : hexDecode (enc1 x ++ rest) = some (x :: b) := by
  have h1 : x % 256 = x := Nat.mod_eq_of_lt hx
  have hdiv : x / 16 < 16 := by omega
  have hmod : x % 16 < 16 := by omega
  have hv : 16 * (x / 16) + x % 16 = x := by omega
  have e : enc1 x ++ rest
      = hexChars.getD (x % 256 / 16) 0 :: hexChars.getD (x % 16) 0 :: rest := rfl
  rw [e, h1, hexDecode, hexDigitVal_enc _ hdiv, hexDigitVal_enc _ hmod, h]
  simp [hv]

lemma hexDecode_hexEncode (b : List Nat) (hb : ∀ x ∈ b, x < 256) :
    hexDecode (hexEncode b) = some b := by
  induction b with
  | nil => rfl
  | cons x xs ih =>
    exact hexDecode_cons x (hb x (by simp)) _ xs (ih fun y hy => hb y (by simp [hy]))

lemma wrap32_id (n : Int) (h0 : 0 ≤ n) (h1 : n < 2 ^ 31) : wrap32 n = n := by
  unfold wrap32
  rw [Int.emod_eq_of_lt (by omega) (by omega)]
  omega

/-! ## C6 and C7: the hex codec -/

/-- C6: for every byte sequence `b` whose doubled length does not overflow a
32-bit `int`, `string2hex` called with a destination returns `2 * len b`,
fills an allocation of exactly `2 * len b + 1` bytes whose positions `2i` and
`2i+1` hold the lowercase hex digits of the high and low nibble of byte `i`,
NUL-terminates at position `2 * len b`, stores `2 * len b` through the length
out-pointer, and the encoding decodes byte-for-byte back to `b`. -/
theorem string2hex_dest_spec (b : List Nat) (hb : ∀ x ∈ b, x < 256)
    (hlen : 2 * (b.length : Int) < 2 ^ 31) :
    (string2hex b b.length true true true).ret = 2 * (b.length : Int)
    ∧ (string2hex b b.length true true true).hexbuf = some (hexEncode b ++ [0])
    ∧ (hexEncode b ++ [0]).length = 2 * b.length + 1
    ∧ (∀ i, i < b.length →
        (hexEncode b ++ [0]).getD (2 * i) 0 = hexChars.getD (b.getD i 0 / 16) 0
        ∧ (hexEncode b ++ [0]).getD (2 * i + 1) 0 = hexChars.getD (b.getD i 0 % 16) 0)
    ∧ (hexEncode b ++ [0]).getD (2 * b.length) 0 = 0
    ∧ (string2hex b b.length true true true).hexbufLen = some (2 * (b.length : Int))
    ∧ hexDecode (hexEncode b) = some b := by
  have hw : wrap32 (2 * (b.length : Int)) = 2 * (b.length : Int) :=
    wrap32_id _ (by positivity) hlen
  have hcond : ¬ ((b.length : Int) < 0 ∨ wrap32 (2 * (b.length : Int)) < (b.length : Int)) := by
    rw [hw]; omega
  have htoNat : ((b.length : Int)).toNat = b.length := by omega
  have hunfold : string2hex b b.length true true true =
      ⟨2 * (b.length : Int), some (hexEncode b ++ [0]), false, some (2 * (b.length : Int))⟩ := by
    simp only [string2hex]
    rw [if_neg hcond, if_neg (by simp), if_neg (by simp), hw, htoNat,
      hexEncodeLoop_eq b b.length le_rfl, List.take_length]
    simp
  refine ⟨by rw [hunfold], by rw [hunfold], ?_, ?_, ?_, by rw [hunfold], hexDecode_hexEncode b hb⟩
  · simp [hexEncode_length]
  · intro i hi
    have h2i : 2 * i < (hexEncode b).length := by rw [hexEncode_length]; omega
    have h2i1 : 2 * i + 1 < (hexEncode b).length := by rw [hexEncode_length]; omega
    have hx : b.getD i 0 % 256 = b.getD i 0 := by
      have hbi : b.getD i 0 < 256 := by
        have e : b.getD i 0 = b[i] := List.getD_eq_getElem b 0 hi
        rw [e]
        exact hb b[i] (List.getElem_mem hi)
      omega
    have h := hexEncode_getD b i hi
    rw [hx] at h
    exact ⟨by rw [List.getD_append _ _ _ _ h2i]; exact h.1,
      by rw [List.getD_append _ _ _ _ h2i1]; exact h.2⟩
  · rw [List.getD_append_right (hexEncode b) [0] 0 (2 * b.length) (by rw [hexEncode_length])]
    simp [hexEncode_length]

/-- Witness for C6 at the concrete byte sequence `[171]`. -/
theorem string2hex_dest_spec_witness :
    (string2hex [171] 1 true true true).ret = 2
    ∧ (string2hex [171] 1 true true true).hexbuf = some [97, 98, 0]
    ∧ hexDecode (hexEncode [171]) = some [171] := by
  have h := string2hex_dest_spec [171] (by decide) (by decide)
  refine ⟨?_, ?_, h.2.2.2.2.2.2⟩
  · simpa using h.1
  · have e : hexEncode [171] ++ [0] = [97, 98, 0] := by decide
    simpa [e] using h.2.1

/-- C7 counterexample: with the destination requested and the native
allocation failing, `string2hex` returns the sentinel `-1` although the input
length is `0`, which is neither negative nor overflow-wrapped, so the
sentinel is not returned exactly on the length conditions. -/
theorem string2hex_sentinel_counterexample :
    (string2hex [] 0 true true false).ret = -1
    ∧ ¬ ((0 : Int) < 0 ∨ wrap32 (2 * 0) < 0) := by decide

/-- C7 amended: `string2hex` returns the sentinel `-1` exactly when the input
length is negative, or the doubled length wraps below the input length, or
the destination is requested and the native allocation fails; on the length
conditions it returns early writing nothing through either out-pointer. -/
theorem string2hex_ret_sentinel_iff (buf : List Nat) (buf_len : Int)
    (wantBuf wantLen allocOk : Bool) :
    ((string2hex buf buf_len wantBuf wantLen allocOk).ret = -1 ↔
      (buf_len < 0 ∨ wrap32 (2 * buf_len) < buf_len ∨ (wantBuf = true ∧ allocOk = false)))
    ∧ ((buf_len < 0 ∨ wrap32 (2 * buf_len) < buf_len) →
      string2hex buf buf_len wantBuf wantLen allocOk = ⟨-1, none, false, none⟩) := by
  by_cases hc : buf_len < 0 ∨ wrap32 (2 * buf_len) < buf_len
  · constructor
    · simp [string2hex, hc]
      tauto
    · intro _; simp [string2hex, hc]
  · have hnn : ¬ buf_len < 0 := by tauto
    have hge : ¬ wrap32 (2 * buf_len) < buf_len := by tauto
    have hret : wrap32 (2 * buf_len) ≠ -1 := by omega
    constructor
    · cases wantBuf with
      | false => simp [string2hex, hc, hret]
      | true =>
        cases allocOk with
        | false => simp [string2hex, hc]
        | true => simp [string2hex, hc, hret]
    · intro h; exact absurd h hc

/-- Witness for C7 amended at a negative input length. -/
theorem string2hex_ret_sentinel_iff_witness :
    string2hex [] (-1) false false true = ⟨-1, none, false, none⟩ := by
  exact (string2hex_ret_sentinel_iff [] (-1) false false true).2 (Or.inl (by decide))

/-! ## C2: the certificate sequence converter -/

lemma ary2skLoop_mismatch (d : RObj) (l : List RObj) : ∀ (acc : List Nat) (k : Nat),
    k < l.length → (l.getD k d).isCert = false → (∀ j, j < k → (l.getD j d).isCert = true) →
    ary2skLoop l acc =
      ⟨.raised .eOSSLErrorK (some certMismatchMsg), acc.length + k, acc.length + k⟩ := by
  induction l with
  | nil => intro acc k hk _ _; simp at hk
  | cons o rest ih =>
    intro acc k hk hbad hgood
    cases k with
    | zero =>
      rw [List.getD_cons_zero] at hbad
      cases o with
      | cert id => simp [RObj.isCert] at hbad
      | nonCert id => simp [ary2skLoop]
    | succ k =>
      have ho : o.isCert = true := by
        have := hgood 0 (by omega)
        rwa [List.getD_cons_zero] at this
      cases o with
      | nonCert id => simp [RObj.isCert] at ho
      | cert id =>
        show ary2skLoop rest (id :: acc) = _
        rw [ih (id :: acc) k (by simpa using hk) (by simpa using hbad)
          (fun j hj => by simpa using hgood (j + 1) (by omega))]
        simp only [List.length_cons]
        congr 1 <;> omega

/-- C2: for every array whose first non-certificate element sits at position
`k`, `ossl_x509_ary2sk` raises the OpenSSLError carrying the message "object
except X509 cert is in array" (the type-mismatch error of this layer), having
first duplicated exactly the `k` preceding certificates and freed all `k`
duplicates again via `sk_X509_pop_free` (no native memory leaks, no stack is
returned). -/
theorem ary2sk_type_mismatch (ary : List RObj) (k : Nat)
    (hk : k < ary.length)
    (hbad : (ary.getD k (.nonCert 0)).isCert = false)
    (hgood : ∀ j, j < k → (ary.getD j (.nonCert 0)).isCert = true) :
    ossl_x509_ary2sk true ary =
      ⟨.raised .eOSSLErrorK (some certMismatchMsg), k, k⟩ := by
  show ary2skLoop ary [] = _
  rw [ary2skLoop_mismatch (.nonCert 0) ary [] k hk hbad hgood]
  simp

/-- Witness for C2 at the concrete array `[cert 5, nonCert 7]`. -/
theorem ary2sk_type_mismatch_witness :
    ossl_x509_ary2sk true [.cert 5, .nonCert 7] =
      ⟨.raised .eOSSLErrorK (some certMismatchMsg), 1, 1⟩ :=
  ary2sk_type_mismatch [.cert 5, .nonCert 7] 1 (by decide) (by decide) (by decide)

/-! ## C8 and C1: the verification callback -/

/-- C8: when both ex-data lookups find nothing, or the resolved closure is the
nil sentinel, the callback returns the native preverify value unchanged and
leaves the context state untouched. -/
theorem verify_cb_passthrough (ok : Int) (st : VCtx) (wrapOk : Bool)
    (proc : RValue → ProcBehavior)
    (h : resolveProc st = none ∨ resolveProc st = some .qnil) :
    ossl_verify_cb ok st wrapOk proc = .ret ok st false := by
  cases h with
  | inl h => simp [ossl_verify_cb, h]
  | inr h => simp [ossl_verify_cb, h]

/-- Witness for C8: passthrough of both preverify values with no registered
closure. -/
theorem verify_cb_passthrough_witness :
    ossl_verify_cb 1 ⟨none, none, 0⟩ true (fun _ => .returns .qfalse)
      = .ret 1 ⟨none, none, 0⟩ false
    ∧ ossl_verify_cb 0 ⟨none, none, 0⟩ true (fun _ => .returns .qfalse)
      = .ret 0 ⟨none, none, 0⟩ false :=
  ⟨verify_cb_passthrough 1 ⟨none, none, 0⟩ true _ (Or.inl rfl),
   verify_cb_passthrough 0 ⟨none, none, 0⟩ true _ (Or.inl rfl)⟩

/-- C1 counterexample: with a non-nil closure whose invocation raises, the
callback does not return false with the rejected error code as the claim
states; the wrapper cleanup runs and the exception propagates out of
`ossl_verify_cb` (only the wrapper construction is guarded by the exception
barrier, not the closure call). -/
theorem verify_cb_raise_counterexample :
    ossl_verify_cb 1 ⟨some (.obj 0), none, X509_V_OK⟩ true (fun _ => .raises)
      = .raised ⟨some (.obj 0), none, X509_V_OK⟩ true
    ∧ ossl_verify_cb 1 ⟨some (.obj 0), none, X509_V_OK⟩ true (fun _ => .raises)
      ≠ .ret 0 ⟨some (.obj 0), none, X509_V_ERR_CERT_REJECTED⟩ true := by
  constructor <;> decide

/-- C1 amended: with a non-nil resolved closure, a closure return of exactly
`Qtrue` forces the error code to ok and returns 1; any other returned value
gives return 0 with the error set to certificate-rejected only when it was
previously ok; a failed wrapper construction likewise gives return 0 with the
same error-code update (and no wrapper cleanup); but a closure invocation
that raises propagates the exception out of the callback after the wrapper
cleanup, returning no value and leaving the error state unchanged. -/
theorem verify_cb_closure_outcomes (ok : Int) (st : VCtx) (wrapOk : Bool)
    (proc : RValue → ProcBehavior) (p : RValue)
    (hres : resolveProc st = some p) (hnn : p ≠ .qnil) :
    (wrapOk = true → proc (preverifyRV ok) = .returns .qtrue →
      ossl_verify_cb ok st wrapOk proc = .ret 1 { st with err := X509_V_OK } true)
    ∧ (∀ v, wrapOk = true → proc (preverifyRV ok) = .returns v →
        v ≠ .qtrue →
        ossl_verify_cb ok st wrapOk proc =
          .ret 0 { st with err := if st.err = X509_V_OK then X509_V_ERR_CERT_REJECTED else st.err } true)
    ∧ (wrapOk = false →
        ossl_verify_cb ok st wrapOk proc =
          .ret 0 { st with err := if st.err = X509_V_OK then X509_V_ERR_CERT_REJECTED else st.err } false)
    ∧ (wrapOk = true → proc (preverifyRV ok) = .raises →
        ossl_verify_cb ok st wrapOk proc = .raised st true) := by
  refine ⟨?_, ?_, ?_, ?_⟩
  · intro hw hp
    simp [ossl_verify_cb, hres, hnn, hw, hp]
  · intro v hw hp hv
    by_cases he : st.err = X509_V_OK <;>
      simp [ossl_verify_cb, hres, hnn, hw, hp, hv, he]
  · intro hw
    by_cases he : st.err = X509_V_OK <;>
      simp [ossl_verify_cb, hres, hnn, hw, he]
  · intro hw hp
    simp [ossl_verify_cb, hres, hnn, hw, hp]

/-- Witness for C1 amended: all four outcomes at concrete inputs. -/
theorem verify_cb_closure_outcomes_witness :
    ossl_verify_cb 1 ⟨some (.obj 3), none, 5⟩ true (fun _ => .returns .qtrue)
      = .ret 1 ⟨some (.obj 3), none, 0⟩ true
    ∧ ossl_verify_cb 1 ⟨some (.obj 3), none, 0⟩ true (fun _ => .returns (.vint 7))
      = .ret 0 ⟨some (.obj 3), none, 28⟩ true
    ∧ ossl_verify_cb 1 ⟨some (.obj 3), none, 0⟩ false (fun _ => .returns .qtrue)
      = .ret 0 ⟨some (.obj 3), none, 28⟩ false
    ∧ ossl_verify_cb 1 ⟨some (.obj 3), none, 0⟩ true (fun _ => .raises)
      = .raised ⟨some (.obj 3), none, 0⟩ true := by
  have h1 := verify_cb_closure_outcomes 1 ⟨some (.obj 3), none, 5⟩ true
    (fun _ => .returns .qtrue) (.obj 3) rfl (by decide)
  have h2 := verify_cb_closure_outcomes 1 ⟨some (.obj 3), none, 0⟩ true
    (fun _ => .returns (.vint 7)) (.obj 3) rfl (by decide)
  have h3 := verify_cb_closure_outcomes 1 ⟨some (.obj 3), none, 0⟩ false
    (fun _ => .returns .qtrue) (.obj 3) rfl (by decide)
  have h4 := verify_cb_closure_outcomes 1 ⟨some (.obj 3), none, 0⟩ true
    (fun _ => .raises) (.obj 3) rfl (by decide)
  refine ⟨?_, ?_, ?_, h4.2.2.2 rfl rfl⟩
  · simpa [X509_V_OK] using h1.1 rfl rfl
  · simpa [X509_V_OK, X509_V_ERR_CERT_REJECTED] using h2.2.1 (.vint 7) rfl rfl (by decide)
  · simpa [X509_V_OK, X509_V_ERR_CERT_REJECTED] using h3.2.2.1 rfl

/-! ## C3 and C10: the passphrase callback -/

lemma pemLoop_decided (c : Nat → Bool → ClosureResult) (max_len : Int) (rflag : Bool) :
    ∀ (k fuel i : Nat) (ws : List PemWarn), k < fuel →
    (∀ j, j < k → pemInvalid max_len (c (i + j) rflag) = true) →
    (c (i + k) rflag = .raise →
      pemLoop c max_len rflag fuel i ws =
        .done ⟨-1, none,
          ws.reverse ++ (List.range k).map (fun j => pemWarnOf max_len (c (i + j) rflag)),
          i + k + 1⟩)
    ∧ (∀ p, c (i + k) rflag = .ok p → 4 ≤ (p.length : Int) → (p.length : Int) ≤ max_len →
      pemLoop c max_len rflag fuel i ws =
        .done ⟨p.length, some p,
          ws.reverse ++ (List.range k).map (fun j => pemWarnOf max_len (c (i + j) rflag)),
          i + k + 1⟩) := by
  intro k
  induction k with
  | zero =>
    intro fuel i ws hf _
    obtain ⟨f, rfl⟩ : ∃ f, fuel = f + 1 := ⟨fuel - 1, by omega⟩
    constructor
    · intro hr
      rw [Nat.add_zero] at hr
      simp [pemLoop, hr]
    · intro p hp h4 hml
      rw [Nat.add_zero] at hp
      have f1 : ¬ ((p.length : Int) < 4) := by omega
      have f2 : ¬ ((p.length : Int) > max_len) := by omega
      simp [pemLoop, hp, f1, f2]
  | succ k ih =>
    intro fuel i ws hf hprev
    obtain ⟨f, rfl⟩ : ∃ f, fuel = f + 1 := ⟨fuel - 1, by omega⟩
    have h0 := hprev 0 (by omega)
    rw [Nat.add_zero] at h0
    cases hc : c i rflag with
    | raise => rw [hc] at h0; simp [pemInvalid] at h0
    | ok p =>
      rw [hc] at h0
      simp only [pemInvalid, Bool.or_eq_true, decide_eq_true_eq] at h0
      have hwarn : pemLoop c max_len rflag (f + 1) i ws
          = pemLoop c max_len rflag f (i + 1) (pemWarnOf max_len (c i rflag) :: ws) := by
        by_cases hlt : (p.length : Int) < 4
        · simp [pemLoop, hc, hlt, pemWarnOf]
        · have hgt : (p.length : Int) > max_len := by tauto
          simp [pemLoop, hc, hlt, hgt, pemWarnOf, if_neg]
      have hco : ∀ j, j < k → pemInvalid max_len (c (i + 1 + j) rflag) = true := by
        intro j hj
        have := hprev (j + 1) (by omega)
        rwa [show i + (j + 1) = i + 1 + j by omega] at this
      have hmapeq : (List.range (k + 1)).map (fun j => pemWarnOf max_len (c (i + j) rflag))
          = pemWarnOf max_len (c i rflag)
            :: (List.range k).map (fun j => pemWarnOf max_len (c (i + 1 + j) rflag)) := by
        simp only [List.range_succ_eq_map, List.map_cons, List.map_map, Nat.add_zero]
        congr 1
        apply List.map_congr_left
        intro a _
        have hsh : i + Nat.succ a = i + 1 + a := by omega
        simp [Function.comp_apply, hsh]
      constructor
      · intro hr
        rw [show i + (k + 1) = i + 1 + k by omega] at hr
        have hres := (ih f (i + 1) (pemWarnOf max_len (c i rflag) :: ws) (by omega) hco).1 hr
        rw [hwarn, hres, hmapeq,
          show i + (k + 1) + 1 = i + 1 + k + 1 by omega]
        simp [List.reverse_cons, List.append_assoc]
      · intro q hq h4 hml
        rw [show i + (k + 1) = i + 1 + k by omega] at hq
        have hres := (ih f (i + 1) (pemWarnOf max_len (c i rflag) :: ws) (by omega) hco).2
          q hq h4 hml
        rw [hwarn, hres, hmapeq,
          show i + (k + 1) + 1 = i + 1 + k + 1 by omega]
        simp [List.reverse_cons, List.append_assoc]

/-- C3: with no direct password and a registered block, if the first `k`
closure invocations return passwords of invalid length (below 4 or above
`max_len`), the callback emits one warning per invalid attempt and re-invokes
the closure; if invocation `k` raises, the callback returns -1 having copied
nothing; if invocation `k` returns a password of length in `[4, max_len]`,
the callback copies exactly those bytes and returns that length. -/
theorem pem_passwd_cb_spec (c : Nat → Bool → ClosureResult) (max_len flag : Int)
    (fuel k : Nat) (hf : k < fuel)
    (hprev : ∀ j, j < k → pemInvalid max_len (c j (decide (flag ≠ 0))) = true) :
    (c k (decide (flag ≠ 0)) = .raise →
      ossl_pem_passwd_cb false true c max_len flag fuel =
        .done ⟨-1, none,
          (List.range k).map (fun j => pemWarnOf max_len (c j (decide (flag ≠ 0)))), k + 1⟩)
    ∧ (∀ p, c k (decide (flag ≠ 0)) = .ok p →
        4 ≤ (p.length : Int) → (p.length : Int) ≤ max_len →
      ossl_pem_passwd_cb false true c max_len flag fuel =
        .done ⟨p.length, some p,
          (List.range k).map (fun j => pemWarnOf max_len (c j (decide (flag ≠ 0)))), k + 1⟩) := by
  have h := pemLoop_decided c max_len (decide (flag ≠ 0)) k fuel 0 [] hf
    (by intro j hj; simpa using hprev j hj)
  constructor
  · intro hr
    have hres := h.1 (by simpa using hr)
    simpa [ossl_pem_passwd_cb] using hres
  · intro p hp h4 hml
    have hres := h.2 p (by simpa using hp) h4 hml
    simpa [ossl_pem_passwd_cb] using hres

/-- Closure used by the C3 witness: a 3-byte password first, then a raise. -/
def pemWitnessClosure : Nat → Bool → ClosureResult :=
  fun i _ => if i = 0 then .ok [1, 2, 3] else .raise

/-- Witness for C3: one too-short attempt with its warning, then a raise
returning -1 on the second invocation. -/
theorem pem_passwd_cb_spec_witness :
    ossl_pem_passwd_cb false true pemWitnessClosure 8 0 2 =
      .done ⟨-1, none, [.tooShort], 2⟩ := by
  have h := (pem_passwd_cb_spec pemWitnessClosure 8 0 2 1 (by omega) (by decide)).1 (by decide)
  rw [h]
  rfl

/-- C10: a password of exactly `max_len` bytes is accepted and exactly
`max_len` bytes are copied into the buffer with no NUL terminator after them,
even though the warning issued for an over-long attempt tells the user the
password must be shorter than `max_len - 1` bytes. -/
theorem pem_passwd_cb_boundary (c : Nat → Bool → ClosureResult) (max_len flag : Int)
    (q p : List Nat) (fuel : Nat)
    (hq : c 0 (decide (flag ≠ 0)) = .ok q) (hq4 : 4 ≤ (q.length : Int))
    (hqlong : max_len < (q.length : Int))
    (hp : c 1 (decide (flag ≠ 0)) = .ok p) (hp4 : 4 ≤ (p.length : Int))
    (hpmax : (p.length : Int) = max_len) (hfuel : 1 < fuel) :
    ossl_pem_passwd_cb false true c max_len flag fuel =
      .done ⟨p.length, some p, [.tooLong (max_len - 1)], 2⟩ := by
  have h := (pemLoop_decided c max_len (decide (flag ≠ 0)) 1 fuel 0 [] hfuel
    (by
      intro j hj
      have hj0 : j = 0 := by omega
      subst hj0
      rw [Nat.add_zero, hq]
      simp only [pemInvalid, Bool.or_eq_true, decide_eq_true_eq]
      omega)).2 p (by simpa using hp) hp4 (le_of_eq hpmax)
  have hred : ossl_pem_passwd_cb false true c max_len flag fuel
      = pemLoop c max_len (decide (flag ≠ 0)) fuel 0 [] := by
    simp [ossl_pem_passwd_cb]
  have hw : pemWarnOf max_len (c 0 (decide (flag ≠ 0))) = .tooLong (max_len - 1) := by
    rw [hq]
    show (if (q.length : Int) < 4 then PemWarn.tooShort else .tooLong (max_len - 1))
      = .tooLong (max_len - 1)
    rw [if_neg (by omega)]
  rw [hred, h]
  show PemOutcome.done ⟨(p.length : Int), some p,
    [pemWarnOf max_len (c 0 (decide (flag ≠ 0)))], 2⟩ = _
  rw [hw]

/-- Closure used by the C10 witness: an over-long password first, then one of
exactly `max_len` bytes. -/
def pemBoundaryClosure : Nat → Bool → ClosureResult :=
  fun i _ => if i = 0 then .ok [7, 7, 7, 7, 7] else .ok [9, 9, 9, 9]

/-- Witness for C10 with `max_len = 4`: the 5-byte attempt draws the warning
naming 3 (= max_len - 1), then the 4-byte password fills the buffer exactly. -/
theorem pem_passwd_cb_boundary_witness :
    ossl_pem_passwd_cb false true pemBoundaryClosure 4 1 2 =
      .done ⟨4, some [9, 9, 9, 9], [.tooLong 3], 2⟩ := by
  have h := pem_passwd_cb_boundary pemBoundaryClosure 4 1 [7, 7, 7, 7, 7] [9, 9, 9, 9] 2
    (by decide) (by decide) (by decide) (by decide) (by decide) (by decide) (by omega)
  simpa using h

/-! ## Lemmas about the error-channel buffer -/

lemma readRange_writeBytes_of_le (b : Nat → Nat) (off : Nat) (s : List Nat) (n : Nat)
    (h : n ≤ off) : readRange (writeBytes b off s) n = readRange b n := by
  unfold readRange
  apply List.map_congr_left
  intro i hi
  have hin : i < n := List.mem_range.mp hi
  unfold writeBytes
  rw [if_neg (by omega)]

lemma readRange_succ (b : Nat → Nat) (n : Nat) :
    readRange b (n + 1) = readRange b n ++ [b n] := by
  unfold readRange
  rw [List.range_succ, List.map_append, List.map_cons, List.map_nil]

lemma readRange_writeBytes_take (b : Nat → Nat) (off : Nat) (s : List Nat) :
    ∀ k, k ≤ s.length →
      readRange (writeBytes b off s) (off + k) = readRange b off ++ s.take k
  | 0, _ => by
    rw [Nat.add_zero, List.take_zero, List.append_nil]
    exact readRange_writeBytes_of_le b off s off le_rfl
  | k + 1, hk => by
    rw [show off + (k + 1) = (off + k) + 1 by omega, readRange_succ,
      readRange_writeBytes_take b off s k (by omega)]
    have hw : writeBytes b off s (off + k) = s.getD k 0 := by
      unfold writeBytes
      rw [if_pos (by omega)]
      congr 1
      omega
    have ht : s.take (k + 1) = s.take k ++ [s.getD k 0] := by
      rw [List.take_succ, List.getElem?_eq_getElem (show k < s.length by omega),
        List.getD_eq_getElem s 0 (show k < s.length by omega)]
      rfl
    rw [hw, ht, List.append_assoc]

lemma readRange_writeBytes_zero (b : Nat → Nat) (s : List Nat) (k : Nat)
    (hk : k ≤ s.length) : readRange (writeBytes b 0 s) k = s.take k := by
  have h := readRange_writeBytes_take b 0 s k hk
  rw [Nat.zero_add] at h
  rw [h]
  simp [readRange]

lemma sizeT_of_nonneg (n : Int) (h0 : 0 ≤ n) (h1 : n < 2 ^ 64) : sizeT n = n.toNat := by
  unfold sizeT
  rw [Int.emod_eq_of_lt h0 h1]

lemma snprintfOut_no_trunc (size : Nat) (s : List Nat) (h : s.length + 1 ≤ size) :
    snprintfOut size s = s ++ [0] := by
  unfold snprintfOut
  rw [if_neg (by omega), List.take_of_length_le (by omega)]

lemma errStep_pos (env : ErrEnv) (b : Nat → Nat) (len : Int) (ok : Bool)
    (he : env.e ≠ 0) :
    errStep env b len ok = mkRaiseResult env
      (writeBytes b len.toNat (snprintfOut (sizeT (BUFSIZ - len)) (chosenMsg env)))
      (len + ((chosenMsg env).length : Int))
      (ok && (decide ((snprintfOut (sizeT (BUFSIZ - len)) (chosenMsg env)).length = 0)
        || decide (len + ((snprintfOut (sizeT (BUFSIZ - len)) (chosenMsg env)).length : Int)
            ≤ BUFSIZ))) := by
  unfold errStep
  rw [if_pos he]

lemma errStep_neg (env : ErrEnv) (b : Nat → Nat) (len : Int) (ok : Bool)
    (he : ¬ env.e ≠ 0) : errStep env b len ok = mkRaiseResult env b len ok := by
  unfold errStep
  rw [if_neg he]

/-! ## C4 and C5: the error channel -/

/-- C4 counterexample: with no pending native error entry and the rendered
prefix "x", the raised message is "x: " with the trailing separator — the
separator is appended whenever a format string is present, so the message is
not the rendered prefix alone. -/
theorem ossl_raise_trailing_sep_counterexample :
    (ossl_raise ⟨0, .qfalse, [], []⟩ (fun _ => 0) (some [120])).message
      = some [120, 58, 32]
    ∧ (ossl_raise ⟨0, .qfalse, [], []⟩ (fun _ => 0) (some [120])).message
      ≠ some [120] := by
  constructor <;> decide

/-- C4 amended: whenever the rendered prefix, the separator and (when an
entry is pending) the chosen native message together fit inside the fixed
buffer, the raised message is the prefix, then ": ", then the native message
when an entry existed — and the prefix followed by the trailing ": " when no
entry existed; the appended native text is the full diagnostic exactly when
the debug flag is the exact value true, and the short reason otherwise. -/
theorem ossl_raise_message_spec (env : ErrEnv) (init : Nat → Nat) (p : List Nat)
    (hfit : (p.length : Int) + 2
      + (if env.e ≠ 0 then ((chosenMsg env).length : Int) else 0) + 1 ≤ BUFSIZ) :
    (ossl_raise env init (some p)).message
      = some (p ++ colonSpace ++ (if env.e ≠ 0 then chosenMsg env else []))
    ∧ chosenMsg env
      = (if env.debugFlag = RValue.qtrue then env.fullMsg else env.reasonMsg) := by
  refine ⟨?_, rfl⟩
  have hs1 : sizeT BUFSIZ = 8192 := by decide
  have hcl : ((colonSpace.length : Nat) : Int) = 2 := by simp [colonSpace]
  have htn : ((p.length : Int)).toNat = p.length := Int.toNat_natCast _
  by_cases he : env.e ≠ 0
  · rw [if_pos he] at hfit ⊢
    have hfit' : (p.length : Int) + 2 + ((chosenMsg env).length : Int) + 1 ≤ 8192 := by
      simpa [BUFSIZ] using hfit
    have hP : p.length + (chosenMsg env).length ≤ 8189 := by omega
    have ho1 : snprintfOut (sizeT BUFSIZ) p = p ++ [0] := by
      rw [hs1]; exact snprintfOut_no_trunc 8192 p (by omega)
    have hs2 : sizeT (BUFSIZ - (p.length : Int)) = 8192 - p.length := by
      rw [sizeT_of_nonneg _ (by simp only [BUFSIZ]; omega) (by simp only [BUFSIZ]; omega)]
      simp only [BUFSIZ]
      omega
    have ho2 : snprintfOut (8192 - p.length) colonSpace = [58, 32, 0] := by
      have h := snprintfOut_no_trunc (8192 - p.length) colonSpace
        (by simp only [colonSpace, List.length_cons, List.length_nil]; omega)
      simpa [colonSpace] using h
    simp only [ossl_raise, ho1, hs2, ho2, htn, hcl]
    rw [errStep_pos env _ _ _ he]
    have hs3 : sizeT (BUFSIZ - ((p.length : Int) + 2)) = 8190 - p.length := by
      rw [sizeT_of_nonneg _ (by simp only [BUFSIZ]; omega) (by simp only [BUFSIZ]; omega)]
      simp only [BUFSIZ]
      omega
    have ho3 : snprintfOut (8190 - p.length) (chosenMsg env) = chosenMsg env ++ [0] :=
      snprintfOut_no_trunc _ _ (by omega)
    have htn2 : (((p.length : Int) + 2)).toNat = p.length + 2 := by omega
    simp only [hs3, ho3, htn2, mkRaiseResult]
    rw [if_pos (show (0 : Int) ≤ (p.length : Int) + 2 + ((chosenMsg env).length : Int)
        ∧ (p.length : Int) + 2 + ((chosenMsg env).length : Int) ≤ BUFSIZ from
      ⟨by omega, by simp only [BUFSIZ]; omega⟩)]
    have htn3 : (((p.length : Int) + 2 + ((chosenMsg env).length : Int))).toNat
        = p.length + 2 + (chosenMsg env).length := by omega
    rw [htn3, readRange_writeBytes_take _ _ _ (chosenMsg env).length (by simp),
      List.take_left, readRange_writeBytes_take _ _ _ 2 (by simp),
      readRange_writeBytes_zero _ _ _ (by simp), List.take_left]
    simp [colonSpace]
  · rw [if_neg he] at hfit ⊢
    have hfit' : (p.length : Int) + 2 + 0 + 1 ≤ 8192 := by simpa [BUFSIZ] using hfit
    have hP : p.length ≤ 8189 := by omega
    have ho1 : snprintfOut (sizeT BUFSIZ) p = p ++ [0] := by
      rw [hs1]; exact snprintfOut_no_trunc 8192 p (by omega)
    have hs2 : sizeT (BUFSIZ - (p.length : Int)) = 8192 - p.length := by
      rw [sizeT_of_nonneg _ (by simp only [BUFSIZ]; omega) (by simp only [BUFSIZ]; omega)]
      simp only [BUFSIZ]
      omega
    have ho2 : snprintfOut (8192 - p.length) colonSpace = [58, 32, 0] := by
      have h := snprintfOut_no_trunc (8192 - p.length) colonSpace
        (by simp only [colonSpace, List.length_cons, List.length_nil]; omega)
      simpa [colonSpace] using h
    simp only [ossl_raise, ho1, hs2, ho2, htn, hcl]
    rw [errStep_neg env _ _ _ he]
    simp only [mkRaiseResult]
    rw [if_pos (show (0 : Int) ≤ (p.length : Int) + 2 ∧ (p.length : Int) + 2 ≤ BUFSIZ from
      ⟨by omega, by simp only [BUFSIZ]; omega⟩)]
    have htn2 : (((p.length : Int) + 2)).toNat = p.length + 2 := by omega
    rw [htn2, readRange_writeBytes_take _ _ _ 2 (by simp),
      readRange_writeBytes_zero _ _ _ (by simp), List.take_left]
    simp [colonSpace]

/-- Witness for C4 amended: both the entry-pending case (with the full
diagnostic under debug, the short reason otherwise) and the no-entry case
with its trailing separator, at concrete inputs. -/
theorem ossl_raise_message_spec_witness :
    (ossl_raise ⟨1, .qtrue, [70], [82]⟩ (fun _ => 0) (some [120])).message
      = some [120, 58, 32, 70]
    ∧ (ossl_raise ⟨1, .qfalse, [70], [82]⟩ (fun _ => 0) (some [120])).message
      = some [120, 58, 32, 82]
    ∧ (ossl_raise ⟨0, .qfalse, [70], [82]⟩ (fun _ => 0) (some [120])).message
      = some [120, 58, 32] := by
  have h1 := ossl_raise_message_spec ⟨1, .qtrue, [70], [82]⟩ (fun _ => 0) [120] (by decide)
  have h2 := ossl_raise_message_spec ⟨1, .qfalse, [70], [82]⟩ (fun _ => 0) [120] (by decide)
  have h3 := ossl_raise_message_spec ⟨0, .qfalse, [70], [82]⟩ (fun _ => 0) [120] (by decide)
  refine ⟨?_, ?_, ?_⟩
  · rw [h1.1]; decide
  · rw [h2.1]; decide
  · rw [h3.1]; decide

/-- Writes and final length of `ossl_raise` when the rendered prefix alone
already exceeds the buffer: the separator write lands past the buffer end,
the final length exceeds `BUFSIZ`, and the message read overruns. -/
lemma ossl_raise_overlong (env : ErrEnv) (init : Nat → Nat) (p : List Nat)
    (he : env.e = 0) (hp : BUFSIZ < (p.length : Int))
    (hp2 : (p.length : Int) < 2 ^ 63) :
    (ossl_raise env init (some p)).len = (p.length : Int) + 2
    ∧ (ossl_raise env init (some p)).writesOk = false
    ∧ (ossl_raise env init (some p)).message = none := by
  have hs1 : sizeT BUFSIZ = 8192 := by decide
  have hcl : ((colonSpace.length : Nat) : Int) = 2 := by simp [colonSpace]
  have htn : ((p.length : Int)).toNat = p.length := Int.toNat_natCast _
  have hPnat : 8192 < p.length := by
    have := hp
    simp only [BUFSIZ] at this
    omega
  have hout1 : (snprintfOut (sizeT BUFSIZ) p).length = 8192 := by
    rw [hs1]
    unfold snprintfOut
    rw [if_neg (by norm_num)]
    simp only [List.length_append, List.length_take, List.length_cons, List.length_nil]
    omega
  have hsz2 : (3 : Nat) ≤ sizeT (BUFSIZ - (p.length : Int)) := by
    show (3 : Nat) ≤ ((BUFSIZ - (p.length : Int)) % 2 ^ 64).toNat
    simp only [BUFSIZ]
    omega
  have ho2 : snprintfOut (sizeT (BUFSIZ - (p.length : Int))) colonSpace = [58, 32, 0] := by
    unfold snprintfOut
    rw [if_neg (by omega),
      List.take_of_length_le (show colonSpace.length ≤ sizeT (BUFSIZ - (p.length : Int)) - 1 by
        simp only [colonSpace, List.length_cons, List.length_nil]
        omega)]
    rfl
  have hne : ¬ env.e ≠ 0 := by simp [he]
  have hdec : decide ((p.length : Int) + ((3 : Nat) : Int) ≤ BUFSIZ) = false := by
    apply decide_eq_false
    simp only [BUFSIZ]
    omega
  simp only [ossl_raise, ho2, htn, hcl]
  rw [errStep_neg env _ _ _ hne]
  simp only [mkRaiseResult, List.length_cons, List.length_nil, hdec]
  refine ⟨trivial, by simp, ?_⟩
  rw [if_neg (by
    intro hcon
    have h2 := hcon.2
    simp only [BUFSIZ] at h2
    omega)]

/-- C5 at the failing input: a prefix rendering to 8193 bytes with no pending
native entry drives `len` to 8195, strictly beyond the 8192-byte buffer: the
separator bytes are stored past the end of the buffer (`writesOk = false`)
and the length handed to the exception constructor makes the message read
overrun the buffer (`message = none`), refuting the claim that all writes and
the final message length stay within the fixed buffer. -/
theorem ossl_raise_overflow_eval :
    (ossl_raise ⟨0, .qfalse, [], []⟩ (fun _ => 0)
        (some (List.replicate 8193 97))).len = 8195
    ∧ BUFSIZ < (ossl_raise ⟨0, .qfalse, [], []⟩ (fun _ => 0)
        (some (List.replicate 8193 97))).len
    ∧ (ossl_raise ⟨0, .qfalse, [], []⟩ (fun _ => 0)
        (some (List.replicate 8193 97))).writesOk = false
    ∧ (ossl_raise ⟨0, .qfalse, [], []⟩ (fun _ => 0)
        (some (List.replicate 8193 97))).message = none := by
  have h := ossl_raise_overlong ⟨0, .qfalse, [], []⟩ (fun _ => 0) (List.replicate 8193 97)
    rfl (by rw [List.length_replicate]; norm_num [BUFSIZ])
    (by rw [List.length_replicate]; norm_num)
  refine ⟨?_, ?_, h.2.1, h.2.2⟩
  · rw [h.1, List.length_replicate]; norm_num
  · rw [h.1, List.length_replicate]; norm_num [BUFSIZ]

/-! ## C9: the debug-flag setter -/

lemma ossl_debug_set_eq (old val : RValue) :
    ossl_debug_set old val
      = ⟨val, val, decide (old ≠ val ∧ val = RValue.qtrue),
          decide (old = RValue.qtrue ∧ val ≠ RValue.qtrue)⟩ := by
  by_cases h1 : old = val <;> by_cases h2 : val = RValue.qtrue <;>
    by_cases h3 : old = RValue.qtrue <;>
    simp_all [ossl_debug_set, ne_comm]

/-- C9: the setter stores the supplied value verbatim and returns it; the
allocator-instrumentation enable path runs exactly when the new value is the
exact true object (and differs from the old), the disable path exactly when
the old value was the exact true object and the new one is not — so a truthy
non-true value (such as an integer) coming from a non-true state triggers
neither path — and with any non-true flag value the error channel picks the
short reason message, not the full diagnostic. -/
theorem debug_set_exact_true (old val : RValue) :
    (ossl_debug_set old val).newFlag = val
    ∧ (ossl_debug_set old val).ret = val
    ∧ ((ossl_debug_set old val).memCheckOn = true ↔ (old ≠ val ∧ val = RValue.qtrue))
    ∧ ((ossl_debug_set old val).memCheckOff = true ↔ (old = RValue.qtrue ∧ val ≠ RValue.qtrue))
    ∧ (val ≠ RValue.qtrue → ∀ e f r, chosenMsg ⟨e, val, f, r⟩ = r) := by
  refine ⟨by rw [ossl_debug_set_eq], by rw [ossl_debug_set_eq], ?_, ?_, ?_⟩
  · rw [ossl_debug_set_eq]
    simp
  · rw [ossl_debug_set_eq]
    simp
  · intro hv e f r
    simp [chosenMsg, hv]

/-- Witness for C9: setting the integer 1 from a false flag triggers neither
allocator path, and the error channel then picks the short reason text. -/
theorem debug_set_exact_true_witness :
    (ossl_debug_set .qfalse (.vint 1)).newFlag = .vint 1
    ∧ (ossl_debug_set .qfalse (.vint 1)).memCheckOn = false
    ∧ (ossl_debug_set .qfalse (.vint 1)).memCheckOff = false
    ∧ chosenMsg ⟨1, .vint 1, [70], [82]⟩ = [82] := by
  have h := debug_set_exact_true .qfalse (.vint 1)
  exact ⟨h.1, by decide, by decide, h.2.2.2.2 (by decide) 1 [70] [82]⟩

end Ossl
